import Mathlib

/-!
Shallow embedding of the MPC Ristretto point engine (`src/mpc_ristretto.rs`).

The Ristretto group is a cyclic group of prime order
`l = 2^252 + 27742317777372353535851937790883648493`; its scalar field is
`ZMod l`.  The embedding is parametric in the scalar modulus `q` and an
additive commutative group `G` carrying a `ZMod q`-module structure,
with an explicit generator standing for `RISTRETTO_BASEPOINT_POINT`.
Concrete instances use `q = ristrettoOrder` and `G = ZMod ristrettoOrder`
with generator `1`, which is isomorphic (as a module) to the Ristretto
group with its base point.

Network interaction is modelled explicitly: every operation that sends
data over the wire returns, next to its result, the list of values it
sends, and takes the values received from the peer as arguments.  Joint
(two-party) versions wire the two parties' sends and receives together;
party 0 is the king (`am_king`).

The repository modules `mpc_scalar.rs`, `lib.rs` (visibility lattice),
`commitment.rs` and `error.rs` are not part of the sources provided; the
definitions below that stand for them are modelled from the spec and say
so in their doc comments.  Everything about `MpcRistrettoPoint` itself is
translated from `src/mpc_ristretto.rs`.
-/

set_option linter.unusedSectionVars false
set_option linter.unusedVariables false

namespace MpcRistretto

/-- The order of the Ristretto group = order of the Curve25519 scalar field. -/
def ristrettoOrder : ℕ := 2 ^ 252 + 27742317777372353535851937790883648493

/-- Modelled from the spec (§4.1): the visibility tag carried by every MPC
value.  The `Visibility` enum lives in the crate root, which is not among
the provided sources. -/
inductive Visibility where
  | Private
  | Shared
  | Public
deriving DecidableEq, Repr

/-- Modelled from the spec (§4.1): rank in the total order
Private(0) < Shared(1) < Public(2). -/
def Visibility.rank : Visibility → Nat
  | .Private => 0
  | .Shared => 1
  | .Public => 2

/-- Modelled from the spec (§4.1): `min_visibility_two`, the min of the two
operands' visibilities in the order Private < Shared < Public. -/
def Visibility.minVisibilityTwo (a b : Visibility) : Visibility :=
  if a.rank ≤ b.rank then a else b

/-- Modelled from the spec (§6): the error taxonomy of `error.rs`, which is
not among the provided sources.  `NetworkError` never occurs in this
deterministic model of the transport. -/
inductive MpcError where
  | NetworkError
  | VisibilityError (msg : String)
  | AuthenticationError
  | SerializationError
  | ArithmeticError
deriving DecidableEq, Repr

/-- Modelled from the spec (§4.2): one party's handle on a scalar
(`MpcScalar` in `mpc_scalar.rs`, not among the provided sources): the local
value together with its visibility.  The network and beaver-source handles
of the Rust struct carry no algebraic content and are modelled by the
explicit send/receive threading of the protocol-level functions. -/
structure MpcScalar (q : ℕ) where
  value : ZMod q
  visibility : Visibility
deriving DecidableEq, Repr

/-- One party's handle on a Ristretto point (`MpcRistrettoPoint`,
`src/mpc_ristretto.rs` lines 29-39): the local value and its visibility.
The `network` and `beaver_source` fields are handles without algebraic
content; the network is modelled by explicit send/receive threading. -/
structure MpcRistrettoPoint (G : Type) where
  value : G
  visibility : Visibility
deriving DecidableEq

variable {q : ℕ} {G : Type} [AddCommGroup G] [Module (ZMod q) G] [DecidableEq G]

/-- `is_public` (`mpc_ristretto.rs` lines 247-250). -/
def MpcRistrettoPoint.isPublic (self : MpcRistrettoPoint G) : Bool :=
  self.visibility == .Public

/-- `is_shared` (`mpc_ristretto.rs` lines 252-255). -/
def MpcRistrettoPoint.isShared (self : MpcRistrettoPoint G) : Bool :=
  self.visibility == .Shared

/-- Modelled from the spec (§4.1): the derived predicate `is_public` on
scalars. -/
def MpcScalar.isPublic (self : MpcScalar q) : Bool :=
  self.visibility == .Public

/-- Modelled from the spec (§4.1): the derived predicate `is_shared` on
scalars. -/
def MpcScalar.isShared (self : MpcScalar q) : Bool :=
  self.visibility == .Shared

/-- `base_point_mul` (`mpc_ristretto.rs` lines 57-61): multiply a scalar by
the base point `gen`. -/
def basePointMul (gen : G) (a : ZMod q) : G := a • gen

/-! ### Scalar arithmetic, modelled from the spec (§4.2)

`mpc_scalar.rs` is not among the provided sources.  The spec: addition of
two Shared or two Public values is share-wise; when exactly one operand is
Public the king folds it into her share and the peer leaves her share
unchanged; subtraction is addition of the negated rhs; negation is local;
`open` broadcasts the share and returns the sum as Public (a no-op clone
on Public values). -/

/-- Modelled from the spec (§4.2): local scalar negation. -/
def MpcScalar.neg (self : MpcScalar q) : MpcScalar q :=
  ⟨-self.value, self.visibility⟩

/-- Modelled from the spec (§4.2): the body of scalar addition after the
public-plus-shared operand swap; `amKing` is this party's `am_king` flag. -/
def MpcScalar.addCore (amKing : Bool) (self rhs : MpcScalar q) : MpcScalar q :=
  ⟨if (self.isPublic && rhs.isPublic) || (self.isShared && rhs.isShared) || amKing then
      self.value + rhs.value
    else
      self.value,
    Visibility.minVisibilityTwo self.visibility rhs.visibility⟩

/-- Modelled from the spec (§4.2): scalar addition; a Public lhs with a
Shared rhs is first swapped, mirroring the point addition of the source. -/
def MpcScalar.add (amKing : Bool) (self rhs : MpcScalar q) : MpcScalar q :=
  if self.isPublic && rhs.isShared then MpcScalar.addCore amKing rhs self
  else MpcScalar.addCore amKing self rhs

/-- Modelled from the spec (§4.2): scalar subtraction, addition of the
negated rhs. -/
def MpcScalar.sub (amKing : Bool) (self rhs : MpcScalar q) : MpcScalar q :=
  MpcScalar.add amKing self rhs.neg

/-- Modelled from the spec (§4.2): scalar `open`.  On a Public value, a
no-op clone that sends nothing; otherwise the party broadcasts its local
value (the returned list), receives the peer's (`received`), and the
result is their sum with visibility Public. -/
def MpcScalar.openWith (self : MpcScalar q) (received : ZMod q) :
    MpcScalar q × List (ZMod q) :=
  if self.isPublic then (self, [])
  else (⟨received + self.value, .Public⟩, [self.value])

/-! ### Point operations, translated from `src/mpc_ristretto.rs` -/

/-- Point negation (`mpc_ristretto.rs` lines 690-701): the local value is
negated, the visibility is kept. -/
def MpcRistrettoPoint.neg (self : MpcRistrettoPoint G) : MpcRistrettoPoint G :=
  ⟨-self.value, self.visibility⟩

/-- The body of point addition after the public-plus-shared swap
(`mpc_ristretto.rs` lines 625-651): both-public and both-shared operands
are added share-wise; otherwise only the king adds, the peer keeps her
share; the result's visibility is the min of the operands'. -/
def MpcRistrettoPoint.addCore (amKing : Bool) (self rhs : MpcRistrettoPoint G) :
    MpcRistrettoPoint G :=
  ⟨if (self.isPublic && rhs.isPublic) || (self.isShared && rhs.isShared) || amKing then
      self.value + rhs.value
    else
      self.value,
    Visibility.minVisibilityTwo self.visibility rhs.visibility⟩

/-- Point addition (`mpc_ristretto.rs` lines 619-653): if the lhs is Public
and the rhs Shared the arguments are swapped, then `addCore`. -/
def MpcRistrettoPoint.add (amKing : Bool) (self rhs : MpcRistrettoPoint G) :
    MpcRistrettoPoint G :=
  if self.isPublic && rhs.isShared then MpcRistrettoPoint.addCore amKing rhs self
  else MpcRistrettoPoint.addCore amKing self rhs

/-- Point subtraction (`mpc_ristretto.rs` lines 663-672): `self + rhs.neg()`. -/
def MpcRistrettoPoint.sub (amKing : Bool) (self rhs : MpcRistrettoPoint G) :
    MpcRistrettoPoint G :=
  MpcRistrettoPoint.add amKing self rhs.neg

/-- Point `open` (`mpc_ristretto.rs` lines 125-145).  A Public value is
cloned and nothing is sent.  Otherwise — for Shared AND for Private values
alike, the source checks only `is_public` — the party broadcasts its local
value (the returned list), receives the peer's (`received`), and the
result is `received + value` with visibility Public. -/
def MpcRistrettoPoint.openWith (self : MpcRistrettoPoint G) (received : G) :
    MpcRistrettoPoint G × List G :=
  if self.isPublic then (self, [])
  else (⟨received + self.value, .Public⟩, [self.value])

/-- `share_secret`, owner's branch (`mpc_ristretto.rs` lines 81-100): the
owner samples a random point (here the parameter `randomShare`), sends it
to the peer, and keeps `value - randomShare` as a Shared value. -/
def MpcRistrettoPoint.shareSecretOwner (self : MpcRistrettoPoint G) (randomShare : G) :
    MpcRistrettoPoint G × List G :=
  (⟨self.value - randomShare, .Shared⟩, [randomShare])

/-- `receive_value` (`mpc_ristretto.rs` lines 108-120): the received point
becomes this party's Shared value. -/
def MpcRistrettoPoint.receiveValue (received : G) : MpcRistrettoPoint G :=
  ⟨received, .Shared⟩

/-- `identity` (`mpc_ristretto.rs` lines 261-268): the group identity with
visibility Public. -/
def MpcRistrettoPoint.identityPt : MpcRistrettoPoint G :=
  ⟨0, .Public⟩

/-- `PartialEq::eq` (`mpc_ristretto.rs` lines 439-443): equality of the
underlying values only; the visibility is not consulted. -/
def MpcRistrettoPoint.eq (self other : MpcRistrettoPoint G) : Bool :=
  self.value == other.value

/-- The local branch of scalar-by-point multiplication (`mpc_ristretto.rs`
lines 511-519): `value * rhs.value` with visibility the min of the
operands'.  (`RistrettoPoint * Scalar` in dalek is the scalar action.) -/
def MpcRistrettoPoint.mulLocal (self : MpcRistrettoPoint G) (rhs : MpcScalar q) :
    MpcRistrettoPoint G :=
  ⟨rhs.value • self.value, Visibility.minVisibilityTwo self.visibility rhs.visibility⟩

/-- Scalar-by-point multiplication, one party's run (`mpc_ristretto.rs`
lines 474-520).  `self` is the point, `rhs` the scalar, `triple` this
party's Beaver triple shares `(a, b, c)`, `recvD` and `recvE` the values
received in the two embedded opens; the second and third components are
the scalar and point values sent.

In the Shared×Shared branch the source opens
`d = rhs - a` (a Shared-minus-Shared scalar subtraction) and
`E = self - base_point_mul(b.value())`, where the subtrahend is wrapped by
`from_public_ristretto_point` — visibility Public — so only the king's
`b`-share is subtracted before the open.  It then forms
`d·[bG] + [a]·E + [c]G`, the king alone adding `d·E`.  The inner
multiplications all have a Public factor, so they take the local branch
(source comment, lines 489-490). -/
def MpcRistrettoPoint.mulWith (gen : G) (amKing : Bool) (self : MpcRistrettoPoint G)
    (rhs : MpcScalar q) (triple : ZMod q × ZMod q × ZMod q) (recvD : ZMod q) (recvE : G) :
    MpcRistrettoPoint G × List (ZMod q) × List G :=
  if self.isShared && rhs.isShared then
    let a : MpcScalar q := ⟨triple.1, .Shared⟩
    let b : MpcScalar q := ⟨triple.2.1, .Shared⟩
    let c : MpcScalar q := ⟨triple.2.2, .Shared⟩
    let dOpen := (rhs.sub amKing a).openWith recvD
    let alphaMinusA := dOpen.1
    let eOpen :=
      (self.sub amKing ⟨basePointMul gen b.value, .Public⟩).openWith recvE
    let betaMinusB := eOpen.1
    let bG : MpcRistrettoPoint G := ⟨basePointMul gen b.value, .Shared⟩
    let cG : MpcRistrettoPoint G := ⟨basePointMul gen c.value, .Shared⟩
    let res :=
      ((bG.mulLocal alphaMinusA).add amKing (betaMinusB.mulLocal a)).add amKing cG
    let res :=
      if amKing then res.add amKing (betaMinusB.mulLocal alphaMinusA) else res
    (res, dOpen.2, eOpen.2)
  else
    (self.mulLocal rhs, [], [])

/-- `multiscalar_mul`, one party's run (`mpc_ristretto.rs` lines 706-731):
`peek().unwrap()` on the points iterator, then a fold of `acc + cᵢ·Pᵢ`
starting from the Public identity.  The `unwrap` panics when the points
list is empty; the panic is modelled as `none`.  The scalars are raw
`Scalar`s, wrapped Public by the `Mul<Scalar>` impl, so every `cᵢ·Pᵢ`
takes the local multiplication branch. -/
def multiscalarMul (amKing : Bool) (scalars : List (ZMod q))
    (points : List (MpcRistrettoPoint G)) : Option (MpcRistrettoPoint G) :=
  match points with
  | [] => none
  | _ :: _ =>
    some ((scalars.zip points).foldl
      (fun acc cp => acc.add amKing (cp.2.mulLocal ⟨cp.1, .Public⟩))
      MpcRistrettoPoint.identityPt)

/-! ### Commitment scheme, modelled from the spec (§4.5) -/

/-- Modelled from the spec (§4.5): the Pedersen-style commitment of
`commitment.rs` (not among the provided sources), generalised to the
point-valued payload committed by `commit_and_open`: `C = v + r·H` for an
independent generator `H` and uniform blinding `r`. -/
def ristrettoCommit (hGen : G) (v : G) (r : ZMod q) : G :=
  v + r • hGen

/-- Modelled from the spec (§4.5): `verify_from_values`, re-computation of
the commitment from the opened blinding and value. -/
def verifyFromValues (hGen : G) (c : G) (r : ZMod q) (v : G) : Bool :=
  c == v + r • hGen

/-- `commit_and_open`, one party's run (`mpc_ristretto.rs` lines 150-195).
A value that is not Shared is rejected with a `VisibilityError` before
anything is sent.  Otherwise the party broadcasts its commitment, then the
blinding, then the value (the returned point and scalar lists), and
verifies the peer's `(commitment, blinding, value)` triple received in
exchange: on mismatch `AuthenticationError`, on success
`value + peerValue` with visibility Public. -/
def MpcRistrettoPoint.commitAndOpen (hGen : G) (self : MpcRistrettoPoint G)
    (blinding : ZMod q) (peerComm : G) (peerBlinding : ZMod q) (peerValue : G) :
    Except MpcError (MpcRistrettoPoint G) × List G × List (ZMod q) :=
  if !self.isShared then
    (.error (.VisibilityError "commit_and_open may only be called on shared values"),
      [], [])
  else
    let comm := ristrettoCommit hGen self.value blinding
    let sentPoints := [comm, self.value]
    let sentScalars := [blinding]
    if !verifyFromValues hGen peerComm peerBlinding peerValue then
      (.error .AuthenticationError, sentPoints, sentScalars)
    else
      (.ok ⟨self.value + peerValue, .Public⟩, sentPoints, sentScalars)

/-! ### Joint (two-party) protocol runs

Party 0 is the king.  A joint value is the pair of the two parties' local
handles; the sends of each party are wired to the receives of the other. -/

/-- Joint point addition: each party adds locally with its own `am_king`
flag. -/
def jointAdd (x y : MpcRistrettoPoint G × MpcRistrettoPoint G) :
    MpcRistrettoPoint G × MpcRistrettoPoint G :=
  (x.1.add true y.1, x.2.add false y.2)

/-- Joint point subtraction. -/
def jointSub (x y : MpcRistrettoPoint G × MpcRistrettoPoint G) :
    MpcRistrettoPoint G × MpcRistrettoPoint G :=
  (x.1.sub true y.1, x.2.sub false y.2)

/-- Joint point negation. -/
def jointNeg (x : MpcRistrettoPoint G × MpcRistrettoPoint G) :
    MpcRistrettoPoint G × MpcRistrettoPoint G :=
  (x.1.neg, x.2.neg)

/-- Joint `open`: each party receives the value the other broadcasts (its
local value; a Public peer sends nothing, but then the matching party is
Public too and ignores the received argument). -/
def jointOpen (x : MpcRistrettoPoint G × MpcRistrettoPoint G) :
    MpcRistrettoPoint G × MpcRistrettoPoint G :=
  ((x.1.openWith x.2.value).1, (x.2.openWith x.1.value).1)

/-- Joint `share_secret` with party 0 as the owner: the owner keeps
`value - randomShare`, the peer receives `randomShare`. -/
def jointShareSecret (self : MpcRistrettoPoint G) (randomShare : G) :
    MpcRistrettoPoint G × MpcRistrettoPoint G :=
  ((self.shareSecretOwner randomShare).1,
    MpcRistrettoPoint.receiveValue randomShare)

/-- Joint scalar-by-point multiplication: each party runs `mulWith` with
its own triple shares, receiving the scalar and point the peer sends in
the two embedded opens. -/
def jointMul (gen : G) (x : MpcRistrettoPoint G × MpcRistrettoPoint G)
    (r : MpcScalar q × MpcScalar q)
    (t0 t1 : ZMod q × ZMod q × ZMod q) :
    MpcRistrettoPoint G × MpcRistrettoPoint G :=
  let d0 := (r.1.sub true ⟨t0.1, .Shared⟩).value
  let d1 := (r.2.sub false ⟨t1.1, .Shared⟩).value
  let e0 := (x.1.sub true ⟨basePointMul gen t0.2.1, .Public⟩).value
  let e1 := (x.2.sub false ⟨basePointMul gen t1.2.1, .Public⟩).value
  ((x.1.mulWith gen true r.1 t0 d1 e1).1, (x.2.mulWith gen false r.2 t1 d0 e0).1)

/-- Joint honest `commit_and_open`: each party receives exactly the
commitment, blinding and value the other sends. -/
def jointCommitAndOpen (hGen : G) (x : MpcRistrettoPoint G × MpcRistrettoPoint G)
    (r0 r1 : ZMod q) :
    Except MpcError (MpcRistrettoPoint G) × Except MpcError (MpcRistrettoPoint G) :=
  ((x.1.commitAndOpen hGen r0 (ristrettoCommit hGen x.2.value r1) r1 x.2.value).1,
    (x.2.commitAndOpen hGen r1 (ristrettoCommit hGen x.1.value r0) r0 x.1.value).1)

/-- The group element a joint value stands for: the common plaintext when
Public, the sum of the two shares otherwise (invariant I1). -/
def jointValue (x : MpcRistrettoPoint G × MpcRistrettoPoint G) : G :=
  if x.1.isPublic then x.1.value else x.1.value + x.2.value

/-- The concrete scalar field and point group of the program:
`ZMod ristrettoOrder`, the point group taken with generator `1`, to which
the Ristretto group with its base point is isomorphic as a
`ZMod ristrettoOrder`-module. -/
abbrev RF : Type := ZMod ristrettoOrder

/-- The concrete point group; see `RF`. -/
abbrev RG : Type := ZMod ristrettoOrder

/-! ## Theorems -/

/-- C9: `PartialEq::eq` on `MpcRistrettoPoint` holds iff the underlying
values are equal; the visibility tag is ignored, so a Private wrapper and a
Public wrapper of the same group element compare equal. -/
theorem eq_ignores_visibility :
    (∀ a b : MpcRistrettoPoint G, a.eq b = true ↔ a.value = b.value) ∧
    (∀ (v : G) (w w' : Visibility),
      (⟨v, w⟩ : MpcRistrettoPoint G).eq ⟨v, w'⟩ = true) := by
  constructor
  · intro a b
    simp [MpcRistrettoPoint.eq]
  · intro v w w'
    simp [MpcRistrettoPoint.eq]

/-- C4, counterexample: `open` called on a Private point does not fail with
a `VisibilityError`; only `is_public` is consulted, so the private value is
broadcast (the sent list is `[5]`) and the sum is returned as Public. -/
theorem open_private_broadcasts_cex :
    MpcRistrettoPoint.openWith (⟨5, .Private⟩ : MpcRistrettoPoint RG) 3 =
      (⟨8, .Public⟩, [5]) := by decide

/-- C4, amended: `open` on a value whose visibility is Private does not
raise any error; it broadcasts the local value exactly as for a Shared
value and returns `received + value` with visibility Public. -/
theorem open_private_broadcasts (p : MpcRistrettoPoint G) (received : G)
    (h : p.visibility = .Private) :
    p.openWith received = (⟨received + p.value, .Public⟩, [p.value]) := by
  simp [MpcRistrettoPoint.openWith, MpcRistrettoPoint.isPublic, h]

/-- C4, amended, concrete run: the private value 5 is broadcast and the
open returns 8 as Public. -/
theorem open_private_broadcasts_check :
    (⟨(5 : RG), .Private⟩ : MpcRistrettoPoint RG).visibility = .Private ∧
    MpcRistrettoPoint.openWith (⟨(5 : RG), .Private⟩ : MpcRistrettoPoint RG) 3 =
      (⟨3 + 5, .Public⟩, [5]) :=
  ⟨rfl, open_private_broadcasts (⟨(5 : RG), .Private⟩ : MpcRistrettoPoint RG) 3 rfl⟩

/-- C8, counterexample: `multiscalar_mul` on empty scalar and point
iterators panics (`peek().unwrap()`, modelled as `none`); no
`ArithmeticError` is produced — the result type of the dalek
`MultiscalarMul` trait has no error channel at all. -/
theorem multiscalarMul_empty_cex :
    multiscalarMul true ([] : List RF) ([] : List (MpcRistrettoPoint RG)) = none := rfl

/-- C8, amended: `multiscalar_mul` panics (modelled `none`) exactly when
the points iterator is empty; on a nonempty points list it returns the
fold of `acc + cᵢ·Pᵢ` and cannot fail. -/
theorem multiscalarMul_none_iff_empty (amKing : Bool) (scalars : List (ZMod q))
    (points : List (MpcRistrettoPoint G)) :
    multiscalarMul amKing scalars points = none ↔ points = [] := by
  cases points <;> simp [multiscalarMul]

/-- C2: after `share_secret` on a Private point `p` held by party 0, the
owner retains `p.value - R` and the peer holds `R`, both Shared; a
subsequent `open` returns `p.value` with visibility Public on both
parties. -/
theorem open_shareSecret_reconstructs (p : MpcRistrettoPoint G) (R : G)
    (h : p.visibility = .Private) :
    jointShareSecret p R = (⟨p.value - R, .Shared⟩, ⟨R, .Shared⟩) ∧
    jointOpen (jointShareSecret p R) = (⟨p.value, .Public⟩, ⟨p.value, .Public⟩) := by
  have h1 : R + (p.value - R) = p.value := by abel
  have h2 : p.value - R + R = p.value := by abel
  constructor
  · rfl
  · simp [jointShareSecret, jointOpen, MpcRistrettoPoint.shareSecretOwner,
      MpcRistrettoPoint.receiveValue, MpcRistrettoPoint.openWith,
      MpcRistrettoPoint.isPublic, h1, h2]

/-- C2, concrete run: party 0 shares the private value 5 with randomness 3;
the shares are (2, 3) and the open returns 5 as Public on both parties. -/
theorem open_shareSecret_reconstructs_check :
    (⟨(5 : RG), .Private⟩ : MpcRistrettoPoint RG).visibility = .Private ∧
    jointShareSecret (⟨(5 : RG), .Private⟩ : MpcRistrettoPoint RG) 3 =
      (⟨2, .Shared⟩, ⟨3, .Shared⟩) ∧
    jointOpen (jointShareSecret (⟨(5 : RG), .Private⟩ : MpcRistrettoPoint RG) 3) =
      (⟨5, .Public⟩, ⟨5, .Public⟩) := by
  have h := open_shareSecret_reconstructs (G := RG) ⟨5, .Private⟩ 3 rfl
  refine ⟨rfl, ?_, h.2⟩
  rw [h.1]
  decide

/-- C5: adding a Public point to a Shared point, in either argument order,
makes the king (party 0) fold the public value into her share while the
peer's share is unchanged, so the result shares are `(v₀ + p, v₁)`; the
shares still sum to `v + p`, and share-wise addition of two Shared values
likewise preserves invariant I1. -/
theorem add_public_folds_king_only (x0 x1 p0 p1 y0 y1 : MpcRistrettoPoint G)
    (hx0 : x0.visibility = .Shared) (hx1 : x1.visibility = .Shared)
    (hp0 : p0.visibility = .Public) (hp1 : p1.visibility = .Public)
    (hpv : p0.value = p1.value)
    (hy0 : y0.visibility = .Shared) (hy1 : y1.visibility = .Shared) :
    jointAdd (x0, x1) (p0, p1) =
      (⟨x0.value + p0.value, .Shared⟩, ⟨x1.value, .Shared⟩) ∧
    jointAdd (p0, p1) (x0, x1) =
      (⟨x0.value + p0.value, .Shared⟩, ⟨x1.value, .Shared⟩) ∧
    (jointAdd (x0, x1) (p0, p1)).1.value + (jointAdd (x0, x1) (p0, p1)).2.value =
      (x0.value + x1.value) + p0.value ∧
    (jointAdd (p0, p1) (x0, x1)).1.value + (jointAdd (p0, p1) (x0, x1)).2.value =
      (x0.value + x1.value) + p0.value ∧
    (jointAdd (x0, x1) (y0, y1)).1.value + (jointAdd (x0, x1) (y0, y1)).2.value =
      (x0.value + x1.value) + (y0.value + y1.value) := by
  refine ⟨?_, ?_, ?_, ?_, ?_⟩ <;>
    simp [jointAdd, MpcRistrettoPoint.add, MpcRistrettoPoint.addCore,
      MpcRistrettoPoint.isPublic, MpcRistrettoPoint.isShared,
      Visibility.minVisibilityTwo, Visibility.rank, hx0, hx1, hp0, hp1, hy0, hy1, hpv] <;>
    abel

/-- C5, concrete run: shares (1, 2) of a Shared point plus the Public
point 10, in both orders, give shares (11, 2); I1 is preserved. -/
theorem add_public_folds_king_only_check :
    (⟨(1 : RG), .Shared⟩ : MpcRistrettoPoint RG).visibility = .Shared ∧
    (⟨(10 : RG), .Public⟩ : MpcRistrettoPoint RG).visibility = .Public ∧
    jointAdd ((⟨(1 : RG), .Shared⟩ : MpcRistrettoPoint RG), ⟨2, .Shared⟩)
        (⟨10, .Public⟩, ⟨10, .Public⟩) =
      (⟨11, .Shared⟩, ⟨2, .Shared⟩) ∧
    jointAdd ((⟨(10 : RG), .Public⟩ : MpcRistrettoPoint RG), ⟨10, .Public⟩)
        (⟨1, .Shared⟩, ⟨2, .Shared⟩) =
      (⟨11, .Shared⟩, ⟨2, .Shared⟩) := by
  have h := add_public_folds_king_only (G := RG) ⟨1, .Shared⟩ ⟨2, .Shared⟩
    ⟨10, .Public⟩ ⟨10, .Public⟩ ⟨3, .Shared⟩ ⟨4, .Shared⟩
    rfl rfl rfl rfl rfl rfl rfl
  refine ⟨rfl, rfl, ?_, ?_⟩
  · rw [h.1]
    decide
  · rw [h.2.1]
    decide

/-- C7: for point addition, point subtraction and scalar-by-point
multiplication, and every combination of operand visibilities, the
visibility of the result is `min_visibility_two` of the operands' in the
order Private < Shared < Public. -/
theorem result_visibility_min_two (gen : G) (amKing : Bool)
    (l r : MpcRistrettoPoint G) (s : MpcScalar q)
    (t : ZMod q × ZMod q × ZMod q) (recvD : ZMod q) (recvE : G) :
    (l.add amKing r).visibility =
      Visibility.minVisibilityTwo l.visibility r.visibility ∧
    (l.sub amKing r).visibility =
      Visibility.minVisibilityTwo l.visibility r.visibility ∧
    (l.mulWith gen amKing s t recvD recvE).1.visibility =
      Visibility.minVisibilityTwo l.visibility s.visibility := by
  obtain ⟨lv, lw⟩ := l
  obtain ⟨rv, rw'⟩ := r
  obtain ⟨sv, sw⟩ := s
  refine ⟨?_, ?_, ?_⟩ <;>
    cases lw <;> cases rw' <;> cases sw <;> cases amKing <;>
      simp [MpcRistrettoPoint.add, MpcRistrettoPoint.addCore, MpcRistrettoPoint.sub,
        MpcRistrettoPoint.neg, MpcRistrettoPoint.mulWith, MpcRistrettoPoint.mulLocal,
        MpcRistrettoPoint.openWith, MpcRistrettoPoint.isPublic, MpcRistrettoPoint.isShared,
        MpcScalar.sub, MpcScalar.add, MpcScalar.addCore, MpcScalar.neg, MpcScalar.openWith,
        MpcScalar.isPublic, MpcScalar.isShared, Visibility.minVisibilityTwo, Visibility.rank]

/-- C10: whenever at least one operand of point-by-scalar multiplication is
not Shared, the product is computed entirely locally — the result is
`rhs.value • self.value`, nothing is sent — and it is tagged with
`min_visibility_two` of the operand visibilities; `min_visibility_two`
with a Private operand is always Private. -/
theorem mul_nonshared_is_local (gen : G) (amKing : Bool) (l : MpcRistrettoPoint G)
    (s : MpcScalar q) (t : ZMod q × ZMod q × ZMod q) (recvD : ZMod q) (recvE : G)
    (w : Visibility) (h : ¬(l.isShared = true ∧ s.isShared = true)) :
    l.mulWith gen amKing s t recvD recvE = (l.mulLocal s, [], []) ∧
    (l.mulLocal s).value = s.value • l.value ∧
    (l.mulLocal s).visibility =
      Visibility.minVisibilityTwo l.visibility s.visibility ∧
    Visibility.minVisibilityTwo w .Private = .Private ∧
    Visibility.minVisibilityTwo .Private w = .Private := by
  refine ⟨?_, rfl, rfl, ?_, ?_⟩
  · have hfalse : (l.isShared && s.isShared) = false := by
      cases hl : l.isShared <;> cases hs : s.isShared <;> simp_all
    simp [MpcRistrettoPoint.mulWith, hfalse]
  · cases w <;> rfl
  · cases w <;> rfl

/-- C10, concrete run: Private point 3 times Shared scalar 2 is computed
locally as 6, tagged Private, with nothing sent. -/
theorem mul_nonshared_is_local_check :
    ¬((⟨(3 : RG), .Private⟩ : MpcRistrettoPoint RG).isShared = true ∧
        (⟨(2 : RF), .Shared⟩ : MpcScalar ristrettoOrder).isShared = true) ∧
    MpcRistrettoPoint.mulWith (1 : RG) true (⟨(3 : RG), .Private⟩ : MpcRistrettoPoint RG)
        (⟨(2 : RF), .Shared⟩ : MpcScalar ristrettoOrder) (0, 0, 0) 0 0 =
      (⟨6, .Private⟩, [], []) := by
  have h : ¬((⟨(3 : RG), .Private⟩ : MpcRistrettoPoint RG).isShared = true ∧
      (⟨(2 : RF), .Shared⟩ : MpcScalar ristrettoOrder).isShared = true) := by decide
  refine ⟨h, ?_⟩
  have h2 := (mul_nonshared_is_local (1 : RG) true ⟨3, .Private⟩ ⟨2, .Shared⟩
    (0, 0, 0) 0 0 .Public h).1
  rw [h2]
  decide

/-- C3: `commit_and_open` on Shared shares with an honest peer returns the
sum of the two parties' shares as Public on both sides; when the peer's
opened (commitment, blinding, value) triple fails verification it fails
with `AuthenticationError`; and on a value that is not Shared it fails
with a `VisibilityError` with nothing sent over the network. -/
theorem commitAndOpen_cases (hGen : G) (x0 x1 w : MpcRistrettoPoint G)
    (b0 b1 : ZMod q) (pc : G) (pb : ZMod q) (pv : G)
    (h0 : x0.visibility = .Shared) (h1 : x1.visibility = .Shared)
    (hbad : verifyFromValues hGen pc pb pv = false)
    (hw : w.visibility ≠ .Shared) :
    jointCommitAndOpen hGen (x0, x1) b0 b1 =
      (.ok ⟨x0.value + x1.value, .Public⟩, .ok ⟨x1.value + x0.value, .Public⟩) ∧
    (x0.commitAndOpen hGen b0 pc pb pv).1 = .error .AuthenticationError ∧
    w.commitAndOpen hGen b0 pc pb pv =
      (.error (.VisibilityError "commit_and_open may only be called on shared values"),
        [], []) := by
  have hws : w.isShared = false := by
    simp [MpcRistrettoPoint.isShared]
    exact hw
  refine ⟨?_, ?_, ?_⟩
  · simp [jointCommitAndOpen, MpcRistrettoPoint.commitAndOpen,
      MpcRistrettoPoint.isShared, h0, h1, verifyFromValues, ristrettoCommit]
  · simp [MpcRistrettoPoint.commitAndOpen, MpcRistrettoPoint.isShared, h0, hbad]
  · simp [MpcRistrettoPoint.commitAndOpen, hws]

/-- C3, concrete run: shares (3, 4) open to 7 on both parties; a peer
triple that fails verification yields `AuthenticationError`; a Public
value yields `VisibilityError` with nothing sent. -/
theorem commitAndOpen_cases_check :
    verifyFromValues (q := ristrettoOrder) (G := RG) 2 0 0 1 = false ∧
    jointCommitAndOpen (2 : RG) ((⟨(3 : RG), .Shared⟩ : MpcRistrettoPoint RG), ⟨4, .Shared⟩)
        (1 : RF) (2 : RF) =
      (.ok ⟨7, .Public⟩, .ok ⟨7, .Public⟩) ∧
    ((⟨(3 : RG), .Shared⟩ : MpcRistrettoPoint RG).commitAndOpen (2 : RG) (1 : RF)
        (0 : RG) (0 : RF) (1 : RG)).1 = .error .AuthenticationError ∧
    (⟨(9 : RG), .Public⟩ : MpcRistrettoPoint RG).commitAndOpen (2 : RG) (1 : RF)
        (0 : RG) (0 : RF) (1 : RG) =
      (.error (.VisibilityError "commit_and_open may only be called on shared values"),
        [], []) := by
  have h := commitAndOpen_cases (q := ristrettoOrder) (G := RG) 2 ⟨3, .Shared⟩ ⟨4, .Shared⟩ ⟨9, .Public⟩
    1 2 0 0 1 rfl rfl (by decide) (by decide)
  refine ⟨?_, ?_, h.2.1, h.2.2⟩
  · decide
  · rw [h.1]
    rfl

/-- C6, counterexample: with a Private visibility assignment the additive
homomorphism fails.  For the joint Private values x = (0, 0) and
y = (0, 1), addition lets only the king add (the peer's y-share is
dropped), so open(x + y) = 0 while open(x) + open(y) = 1. -/
theorem open_add_hom_private_cex :
    (jointOpen (jointAdd ((⟨0, .Private⟩ : MpcRistrettoPoint RG), ⟨0, .Private⟩)
        (⟨0, .Private⟩, ⟨1, .Private⟩))).1.value = 0 ∧
    (jointOpen ((⟨0, .Private⟩ : MpcRistrettoPoint RG), ⟨0, .Private⟩)).1.value +
        (jointOpen ((⟨0, .Private⟩ : MpcRistrettoPoint RG), ⟨1, .Private⟩)).1.value = 1 ∧
    (0 : RG) ≠ 1 := by decide

/-- C6, amended: for every visibility assignment over {Shared, Public}
(Private operands excluded; a Public value being held identically by both
parties, invariant I2), opening a sum equals the sum of the openings on
both parties, and likewise for subtraction and negation. -/
theorem open_add_hom_nonprivate (x0 x1 y0 y1 : MpcRistrettoPoint G)
    (hx : x1.visibility = x0.visibility) (hy : y1.visibility = y0.visibility)
    (hxp : x0.visibility ≠ .Private) (hyq : y0.visibility ≠ .Private)
    (hxI2 : x0.visibility = .Public → x1.value = x0.value)
    (hyI2 : y0.visibility = .Public → y1.value = y0.value) :
    ((jointOpen (jointAdd (x0, x1) (y0, y1))).1.value =
        (jointOpen (x0, x1)).1.value + (jointOpen (y0, y1)).1.value ∧
      (jointOpen (jointAdd (x0, x1) (y0, y1))).2.value =
        (jointOpen (x0, x1)).2.value + (jointOpen (y0, y1)).2.value) ∧
    ((jointOpen (jointSub (x0, x1) (y0, y1))).1.value =
        (jointOpen (x0, x1)).1.value - (jointOpen (y0, y1)).1.value ∧
      (jointOpen (jointSub (x0, x1) (y0, y1))).2.value =
        (jointOpen (x0, x1)).2.value - (jointOpen (y0, y1)).2.value) ∧
    ((jointOpen (jointNeg (x0, x1))).1.value = -(jointOpen (x0, x1)).1.value ∧
      (jointOpen (jointNeg (x0, x1))).2.value = -(jointOpen (x0, x1)).2.value) := by
  obtain ⟨xv0, xw0⟩ := x0
  obtain ⟨xv1, xw1⟩ := x1
  obtain ⟨yv0, yw0⟩ := y0
  obtain ⟨yv1, yw1⟩ := y1
  dsimp only at hx hy hxp hyq hxI2 hyI2
  subst hx
  subst hy
  cases xw1 <;> cases yw1 <;>
    first
    | exact absurd rfl hxp
    | exact absurd rfl hyq
    | refine ⟨⟨?_, ?_⟩, ⟨?_, ?_⟩, ?_, ?_⟩ <;>
        simp [hxI2, hyI2, jointOpen, jointAdd, jointSub, jointNeg,
          MpcRistrettoPoint.add, MpcRistrettoPoint.addCore, MpcRistrettoPoint.sub,
          MpcRistrettoPoint.neg, MpcRistrettoPoint.openWith,
          MpcRistrettoPoint.isPublic, MpcRistrettoPoint.isShared,
          Visibility.minVisibilityTwo, Visibility.rank] <;>
      abel

/-- C6, amended, concrete run: Shared shares (1, 2) plus the Public
value 3 — open of the sum is 6 = 3 + 3 on both parties, and likewise for
subtraction and negation. -/
theorem open_add_hom_nonprivate_check :
    ((jointOpen (jointAdd ((⟨(1 : RG), .Shared⟩ : MpcRistrettoPoint RG), ⟨2, .Shared⟩)
          (⟨3, .Public⟩, ⟨3, .Public⟩))).1.value =
        (jointOpen ((⟨(1 : RG), .Shared⟩ : MpcRistrettoPoint RG), ⟨2, .Shared⟩)).1.value +
          (jointOpen ((⟨(3 : RG), .Public⟩ : MpcRistrettoPoint RG), ⟨3, .Public⟩)).1.value ∧
      (jointOpen (jointAdd ((⟨(1 : RG), .Shared⟩ : MpcRistrettoPoint RG), ⟨2, .Shared⟩)
          (⟨3, .Public⟩, ⟨3, .Public⟩))).2.value =
        (jointOpen ((⟨(1 : RG), .Shared⟩ : MpcRistrettoPoint RG), ⟨2, .Shared⟩)).2.value +
          (jointOpen ((⟨(3 : RG), .Public⟩ : MpcRistrettoPoint RG), ⟨3, .Public⟩)).2.value) ∧
    ((jointOpen (jointSub ((⟨(1 : RG), .Shared⟩ : MpcRistrettoPoint RG), ⟨2, .Shared⟩)
          (⟨3, .Public⟩, ⟨3, .Public⟩))).1.value =
        (jointOpen ((⟨(1 : RG), .Shared⟩ : MpcRistrettoPoint RG), ⟨2, .Shared⟩)).1.value -
          (jointOpen ((⟨(3 : RG), .Public⟩ : MpcRistrettoPoint RG), ⟨3, .Public⟩)).1.value ∧
      (jointOpen (jointSub ((⟨(1 : RG), .Shared⟩ : MpcRistrettoPoint RG), ⟨2, .Shared⟩)
          (⟨3, .Public⟩, ⟨3, .Public⟩))).2.value =
        (jointOpen ((⟨(1 : RG), .Shared⟩ : MpcRistrettoPoint RG), ⟨2, .Shared⟩)).2.value -
          (jointOpen ((⟨(3 : RG), .Public⟩ : MpcRistrettoPoint RG), ⟨3, .Public⟩)).2.value) ∧
    ((jointOpen (jointNeg ((⟨(1 : RG), .Shared⟩ : MpcRistrettoPoint RG), ⟨2, .Shared⟩))).1.value =
        -(jointOpen ((⟨(1 : RG), .Shared⟩ : MpcRistrettoPoint RG), ⟨2, .Shared⟩)).1.value ∧
      (jointOpen (jointNeg ((⟨(1 : RG), .Shared⟩ : MpcRistrettoPoint RG), ⟨2, .Shared⟩))).2.value =
        -(jointOpen ((⟨(1 : RG), .Shared⟩ : MpcRistrettoPoint RG), ⟨2, .Shared⟩)).2.value) :=
  open_add_hom_nonprivate (G := RG) ⟨1, .Shared⟩ ⟨2, .Shared⟩ ⟨3, .Public⟩ ⟨3, .Public⟩
    rfl rfl (by decide) (by decide) (by decide) (by decide)

/-- C1: scalar-by-point multiplication of two Shared values does NOT open
to the product of the openings.  The source wraps
`base_point_mul(b.value())` with `from_public_ristretto_point`, so in the
point open `E = self - bG` only the king's `b`-share is subtracted: the
opened `E` is `βG - b₀G` instead of `βG - bG`, and the result's shares sum
to `αβG + α·b₁·G`.  At the valid triple shares (0,0,0)/(0,1,0)
(a = 0, b = 1, c = 0 = a·b), Shared scalar (1,0) (α = 1) and Shared point
(1,0) (P = 1·gen), both parties open the product to `2·gen` while
`open(x)·open(P) = 1·gen`. -/
theorem mul_shared_point_drops_peer_b_share :
    (((0 : RF) + 0) * (0 + 1) = 0 + 0) ∧
    (jointOpen (jointMul (1 : RG) ((⟨1, .Shared⟩ : MpcRistrettoPoint RG), ⟨0, .Shared⟩)
          ((⟨(1 : RF), .Shared⟩ : MpcScalar ristrettoOrder), ⟨0, .Shared⟩)
          (0, 0, 0) (0, 1, 0))).1.value = 2 ∧
    (jointOpen (jointMul (1 : RG) ((⟨1, .Shared⟩ : MpcRistrettoPoint RG), ⟨0, .Shared⟩)
          ((⟨(1 : RF), .Shared⟩ : MpcScalar ristrettoOrder), ⟨0, .Shared⟩)
          (0, 0, 0) (0, 1, 0))).2.value = 2 ∧
    ((1 : RF) + 0) • ((1 : RG) + 0) = 1 ∧
    (2 : RG) ≠ 1 := by decide

end MpcRistretto
